import Mathlib

/-!
Shallow embedding of the `riscv` package: a textual RV32I interpreter with a
32-register file, flat little-endian byte memory, a positional label table and
a fetch/decode/execute step function.

Conventions of the embedding:
* Go `int32` values are represented as `Int` together with the explicit
  wrap-around function `wrap32`; Go `uint32` values as `Nat` reduced by
  `% 4294967296` (`toUInt32n`).
* A Go runtime panic (invalid register name, unparseable immediate,
  unresolved jump label, division by zero, negative shift count, slice
  index out of range) is modelled by `Option`: `none` is a panic, `some`
  a normal result.
* The Go `map[string]uint32` label table is modelled as an association
  list where a later insertion is consed in front of (and thereby
  shadows) an earlier binding with the same key, matching the map's
  last-writer-wins lookup semantics.
-/

namespace Riscv

/-- Two to the 32nd, the modulus of `uint32` arithmetic. -/
def m32 : Nat := 4294967296

/-- Reduce an `Int` into the signed 32-bit range `[-2^31, 2^31)`,
the effect of a Go conversion to `int32`. -/
def wrap32 (n : Int) : Int := (n + 2147483648) % 4294967296 - 2147483648

/-- Reinterpret an `Int` as a Go `uint32` (conversion wraps mod `2^32`). -/
def toUInt32n (n : Int) : Nat := (n % 4294967296).toNat

/-- Reinterpret a `uint32` value (a `Nat` below `2^32`) as an `int32`. -/
def u32ToInt32 (n : Nat) : Int := wrap32 n

/-- The processor state, field for field the Go struct `CPU`.
`PC`, the label addresses and memory bytes are `uint32`/`uint8` values
kept as `Nat`; registers are `int32` values kept as `Int`. -/
structure CPU where
  PC : Nat
  Registers : List Int
  Memory : List Nat
  MemorySize : Nat
  instructions : List String
  Done : Bool
  Labels : List (String × Nat)
  MemoryHistory : List String
  entryPoint : String
deriving Repr, DecidableEq

/-- Read register `i` (`cpu.Registers[i]`; indices produced by the decoder
are always below 32, so the default is never used along real paths). -/
def regGet (cpu : CPU) (i : Nat) : Int := cpu.Registers.getD i 0

/-- The ABI/numeric register-name table `abiToRegister`; `none` stands for a
name outside the map. -/
def abiToRegister (s : String) : Option Nat :=
  if s = "zero" ∨ s = "x0" then some 0
  else if s = "ra" ∨ s = "x1" then some 1
  else if s = "sp" ∨ s = "x2" then some 2
  else if s = "gp" ∨ s = "x3" then some 3
  else if s = "tp" ∨ s = "x4" then some 4
  else if s = "t0" ∨ s = "x5" then some 5
  else if s = "t1" ∨ s = "x6" then some 6
  else if s = "t2" ∨ s = "x7" then some 7
  else if s = "fp" ∨ s = "s0" ∨ s = "x8" then some 8
  else if s = "s1" ∨ s = "x9" then some 9
  else if s = "a0" ∨ s = "x10" then some 10
  else if s = "a1" ∨ s = "x11" then some 11
  else if s = "a2" ∨ s = "x12" then some 12
  else if s = "a3" ∨ s = "x13" then some 13
  else if s = "a4" ∨ s = "x14" then some 14
  else if s = "a5" ∨ s = "x15" then some 15
  else if s = "a6" ∨ s = "x16" then some 16
  else if s = "a7" ∨ s = "x17" then some 17
  else if s = "s2" ∨ s = "x18" then some 18
  else if s = "s3" ∨ s = "x19" then some 19
  else if s = "s4" ∨ s = "x20" then some 20
  else if s = "s5" ∨ s = "x21" then some 21
  else if s = "s6" ∨ s = "x22" then some 22
  else if s = "s7" ∨ s = "x23" then some 23
  else if s = "s8" ∨ s = "x24" then some 24
  else if s = "s9" ∨ s = "x25" then some 25
  else if s = "s10" ∨ s = "x26" then some 26
  else if s = "s11" ∨ s = "x27" then some 27
  else if s = "t3" ∨ s = "x28" then some 28
  else if s = "t4" ∨ s = "x29" then some 29
  else if s = "t5" ∨ s = "x30" then some 30
  else if s = "t6" ∨ s = "x31" then some 31
  else none

/-- `getRegisterNumber`: resolve a register name; an unknown name panics
in Go (`none` here). -/
def getRegisterNumber (abiName : String) : Option Nat := abiToRegister abiName

/-- `strconv.Atoi`: optional sign, decimal digits, whole string, 64-bit
`int` range; errors are `none`. -/
def goAtoi (s : String) : Option Int :=
  let cs := s.toList
  let signed : Int × List Char :=
    match cs with
    | '+' :: r => (1, r)
    | '-' :: r => (-1, r)
    | r => (1, r)
  let sign := signed.1
  let digits := signed.2
  if digits.isEmpty then none
  else if digits.all Char.isDigit then
    let n : Nat := digits.foldl (fun a c => a * 10 + (c.toNat - 48)) 0
    let v : Int := sign * (n : Int)
    if v < -(9223372036854775808 : Int) ∨ (9223372036854775807 : Int) < v then none
    else some v
  else none

/-- `parseImm`: parse a base-10 immediate and convert it to `int32`;
a parse error panics. -/
def parseImm (imm_str : String) : Option Int := (goAtoi imm_str).map wrap32

/-- `NewCPU`: zero-filled memory, stack pointer (register 2) preset to the
memory size, PC at the reserved base 16. -/
def NewCPU (memorySize : Nat) : CPU :=
  { PC := 16
    Registers := (List.replicate 32 0).set 2 (wrap32 memorySize)
    Memory := List.replicate memorySize 0
    MemorySize := memorySize
    instructions := []
    Done := false
    Labels := []
    MemoryHistory := []
    entryPoint := "" }

/-- `checkMemoryAccess`: `true` means the access is rejected
(`address+4 > uint32(len(Memory))`, both sides `uint32`, so the left-hand
sum wraps at `2^32`). -/
def checkMemoryAccess (cpu : CPU) (address : Nat) : Bool :=
  decide ((address + 4) % m32 > cpu.Memory.length % m32)

/-- Little-endian read of `width` bytes starting at `a`. -/
def readLE (mem : List Nat) (a : Nat) : Nat → Nat
  | 0 => 0
  | w + 1 => mem.getD a 0 + 256 * readLE mem (a + 1) w

/-- Little-endian write of the low `width` bytes of `v` starting at `a`. -/
def writeLE (mem : List Nat) (a : Nat) (v : Nat) : Nat → List Nat
  | 0 => mem
  | w + 1 => writeLE (mem.set a (v % 256)) (a + 1) (v / 256) w

/-- `loadWord`: a rejected access returns 0 without logging; otherwise read
4 bytes little-endian as `int32` and prepend a history line.  A passed
check can still leave the Go slice `Memory[address:]` shorter than 4 bytes
when `address+4` wrapped at `2^32`; that slice access panics (`none`). -/
def loadWord (cpu : CPU) (address : Nat) : Option (Int × CPU) :=
  if checkMemoryAccess cpu address then some (0, cpu)
  else if cpu.Memory.length < address + 4 then none
  else
    let value : Int := u32ToInt32 (readLE cpu.Memory address 4)
    some (value,
      { cpu with MemoryHistory :=
          (toString value |> fun v => toString address |> fun a =>
            "Loaded word (" ++ v ++ ") from  " ++ a) :: cpu.MemoryHistory })

/-- `loadHalf`: as `loadWord` but 2 bytes, returning the raw `uint16`. -/
def loadHalf (cpu : CPU) (address : Nat) : Option (Nat × CPU) :=
  if checkMemoryAccess cpu address then some (0, cpu)
  else if cpu.Memory.length < address + 2 then none
  else
    let value : Nat := readLE cpu.Memory address 2
    some (value,
      { cpu with MemoryHistory :=
          (toString value |> fun v => toString address |> fun a =>
            "Loaded half (" ++ v ++ ") from  " ++ a) :: cpu.MemoryHistory })

/-- `loadByte`: as `loadWord` but one byte, returning the raw `uint8`. -/
def loadByte (cpu : CPU) (address : Nat) : Option (Nat × CPU) :=
  if checkMemoryAccess cpu address then some (0, cpu)
  else if cpu.Memory.length < address + 1 then none
  else
    let value : Nat := cpu.Memory.getD address 0
    some (value,
      { cpu with MemoryHistory :=
          (toString value |> fun v => toString address |> fun a =>
            "Loaded byte (" ++ v ++ ") from  " ++ a) :: cpu.MemoryHistory })

/-- `storeWord`: a rejected access is silently dropped; otherwise log a
history line and write 4 little-endian bytes of `uint32(value)`; as in
`loadWord` a wrapped check can reach an out-of-range slice panic. -/
def storeWord (cpu : CPU) (address : Nat) (value : Int) : Option CPU :=
  if checkMemoryAccess cpu address then some cpu
  else if cpu.Memory.length < address + 4 then none
  else some
    { cpu with
      MemoryHistory :=
        (toString value |> fun v => toString address |> fun a =>
          "Stored word (" ++ v ++ ") to address " ++ a) :: cpu.MemoryHistory
      Memory := writeLE cpu.Memory address (toUInt32n value) 4 }

/-- `storeHalf`: two-byte store of `uint16(value)`. -/
def storeHalf (cpu : CPU) (address : Nat) (value : Int) : Option CPU :=
  if checkMemoryAccess cpu address then some cpu
  else if cpu.Memory.length < address + 2 then none
  else some
    { cpu with
      MemoryHistory :=
        (toString value |> fun v => toString address |> fun a =>
          "Stored half-word (" ++ v ++ ") to address " ++ a) :: cpu.MemoryHistory
      Memory := writeLE cpu.Memory address ((value % 65536).toNat) 2 }

/-- `storeByte`: one-byte store of `uint8(value)`. -/
def storeByte (cpu : CPU) (address : Nat) (value : Int) : Option CPU :=
  if checkMemoryAccess cpu address then some cpu
  else if cpu.Memory.length < address + 1 then none
  else some
    { cpu with
      MemoryHistory :=
        (toString value |> fun v => toString address |> fun a =>
          "Stored byte (" ++ v ++ ") to address " ++ a) :: cpu.MemoryHistory
      Memory := cpu.Memory.set address ((value % 256).toNat) }

/-! ### Instruction operator tables

The Go code stores the operator closures inside the instruction values; here
each map becomes a tag enumeration plus one evaluation function, as the
spec's design notes prescribe for a reimplementation. -/

/-- Tags of the `instrToThreePtOp` map (register-register operators). -/
inductive ThreePtOp
  | add | sub | mul | div | rem | bitand | bitor | bitxor | sll | srl | sra
deriving Repr, DecidableEq

/-- The closures of `instrToThreePtOp` on `int32` values.  `none` is a Go
runtime panic: division or remainder by zero, or a negative shift count. -/
def threePtOpFn : ThreePtOp → Int → Int → Option Int
  | .add, a, b => some (wrap32 (a + b))
  | .sub, a, b => some (wrap32 (a - b))
  | .mul, a, b => some (wrap32 (a * b))
  | .div, a, b => if b = 0 then none else some (wrap32 (Int.tdiv a b))
  | .rem, a, b => if b = 0 then none else some (Int.tmod a b)
  | .bitand, a, b => some (u32ToInt32 (Nat.land (toUInt32n a) (toUInt32n b)))
  | .bitor, a, b => some (u32ToInt32 (Nat.lor (toUInt32n a) (toUInt32n b)))
  | .bitxor, a, b => some (u32ToInt32 (Nat.xor (toUInt32n a) (toUInt32n b)))
  | .sll, a, b => if b < 0 then none else some (wrap32 (a * (2 : Int) ^ b.toNat))
  | .srl, a, b => if b < 0 then none else some (u32ToInt32 (toUInt32n a / 2 ^ b.toNat))
  | .sra, a, b => if b < 0 then none else some (Int.fdiv a ((2 : Int) ^ b.toNat))

/-- Keys of `instrToThreePtOp` (also the list `threePtInstrTypes`). -/
def threePtOpOfString (s : String) : Option ThreePtOp :=
  if s = "add" then some .add
  else if s = "sub" then some .sub
  else if s = "mul" then some .mul
  else if s = "div" then some .div
  else if s = "rem" then some .rem
  else if s = "and" then some .bitand
  else if s = "or" then some .bitor
  else if s = "xor" then some .bitxor
  else if s = "sll" then some .sll
  else if s = "srl" then some .srl
  else if s = "sra" then some .sra
  else none

/-- Tags of `instrToThreePtImmOp`; `mv` is the extra closure
`func(i1, i2) { return i1 }` that the `mv` decode branch installs. -/
inductive ThreePtImmOp
  | addi | andi | ori | xori | slli | srli | srai | mv
deriving Repr, DecidableEq

/-- The closures of `instrToThreePtImmOp` (plus the `mv` copy closure). -/
def threePtImmOpFn : ThreePtImmOp → Int → Int → Option Int
  | .addi, a, b => some (wrap32 (a + b))
  | .andi, a, b => some (u32ToInt32 (Nat.land (toUInt32n a) (toUInt32n b)))
  | .ori, a, b => some (u32ToInt32 (Nat.lor (toUInt32n a) (toUInt32n b)))
  | .xori, a, b => some (u32ToInt32 (Nat.xor (toUInt32n a) (toUInt32n b)))
  | .slli, a, b => if b < 0 then none else some (wrap32 (a * (2 : Int) ^ b.toNat))
  | .srli, a, b => if b < 0 then none else some (u32ToInt32 (toUInt32n a / 2 ^ b.toNat))
  | .srai, a, b => if b < 0 then none else some (Int.fdiv a ((2 : Int) ^ b.toNat))
  | .mv, a, _ => some a

/-- Keys of `instrToThreePtImmOp`. -/
def threePtImmOpOfString (s : String) : Option ThreePtImmOp :=
  if s = "addi" then some .addi
  else if s = "andi" then some .andi
  else if s = "ori" then some .ori
  else if s = "xori" then some .xori
  else if s = "slli" then some .slli
  else if s = "srli" then some .srli
  else if s = "srai" then some .srai
  else none

/-- Tags of `instrToLoadImmOp`. -/
inductive LoadImmOp
  | li | lui | auipc
deriving Repr, DecidableEq

/-- The closures of `instrToLoadImmOp`; `lui` shifts by 12, `auipc` adds
the shifted immediate to `int32(cpu.PC)`. -/
def loadImmOpFn : LoadImmOp → CPU → Int → Int
  | .li, _, imm => imm
  | .lui, _, imm => wrap32 (imm * 4096)
  | .auipc, cpu, imm => wrap32 (u32ToInt32 cpu.PC + wrap32 (imm * 4096))

/-- Keys of `instrToLoadImmOp`. -/
def loadImmOpOfString (s : String) : Option LoadImmOp :=
  if s = "li" then some .li
  else if s = "lui" then some .lui
  else if s = "auipc" then some .auipc
  else none

/-- Tags of `instrToLoadOp`. -/
inductive LoadOp
  | lw | lh | lhu | lb | lbu
deriving Repr, DecidableEq

/-- Effective address `uint32(rs1_val + imm)` of the load/store closures
(`int32` addition, then conversion to `uint32`). -/
def effAddr (rs1_val imm : Int) : Nat := toUInt32n (wrap32 (rs1_val + imm))

/-- The closures of `instrToLoadOp`.  `lh`/`lb` convert the raw unsigned
`uint16`/`uint8` with `int32(...)`, which zero-extends exactly like
`lhu`/`lbu`. -/
def loadOpFn : LoadOp → CPU → Int → Int → Option (Int × CPU)
  | .lw, cpu, rs1_val, imm => loadWord cpu (effAddr rs1_val imm)
  | .lh, cpu, rs1_val, imm =>
    (loadHalf cpu (effAddr rs1_val imm)).map fun p => ((p.1 : Int), p.2)
  | .lhu, cpu, rs1_val, imm =>
    (loadHalf cpu (effAddr rs1_val imm)).map fun p => ((p.1 : Int), p.2)
  | .lb, cpu, rs1_val, imm =>
    (loadByte cpu (effAddr rs1_val imm)).map fun p => ((p.1 : Int), p.2)
  | .lbu, cpu, rs1_val, imm =>
    (loadByte cpu (effAddr rs1_val imm)).map fun p => ((p.1 : Int), p.2)

/-- Keys of `instrToLoadOp`. -/
def loadOpOfString (s : String) : Option LoadOp :=
  if s = "lw" then some .lw
  else if s = "lh" then some .lh
  else if s = "lhu" then some .lhu
  else if s = "lb" then some .lb
  else if s = "lbu" then some .lbu
  else none

/-- Tags of `instrToStoreOp`. -/
inductive StoreOp
  | sw | sh | sb
deriving Repr, DecidableEq

/-- The closures of `instrToStoreOp` (address is `uint32(imm + rs1_val)`). -/
def storeOpFn : StoreOp → CPU → Int → Int → Int → Option CPU
  | .sw, cpu, rs1_val, rs2_val, imm => storeWord cpu (effAddr imm rs1_val) rs2_val
  | .sh, cpu, rs1_val, rs2_val, imm => storeHalf cpu (effAddr imm rs1_val) rs2_val
  | .sb, cpu, rs1_val, rs2_val, imm => storeByte cpu (effAddr imm rs1_val) rs2_val

/-- Keys of `instrToStoreOp`. -/
def storeOpOfString (s : String) : Option StoreOp :=
  if s = "sw" then some .sw
  else if s = "sh" then some .sh
  else if s = "sb" then some .sb
  else none

/-- `immOrLabel`: a branch/jump target parses as a literal displacement
first (`strconv.Atoi`, kept at full `int` width) and only otherwise as a
label, whose displacement is `int(labelAddr) - int(cpu.PC)`; an
unresolved label panics ("Invalid Jump"). -/
def immOrLabel (cpu : CPU) (destination : String) : Option Int :=
  match goAtoi destination with
  | some imm => some imm
  | none =>
    match cpu.Labels.lookup destination with
    | some targetAddr => some ((targetAddr : Int) - (cpu.PC : Int))
    | none => none

/-- `trueOrNext`: on a taken branch `cpu.PC += uint32(immOrLabel(...))`,
otherwise `cpu.PC += 4` (both `uint32` additions wrap). -/
def trueOrNext (cpu : CPU) (valid : Bool) (destination : String) : Option CPU :=
  if valid then
    (immOrLabel cpu destination).map fun imm =>
      { cpu with PC := (cpu.PC + toUInt32n imm) % m32 }
  else some { cpu with PC := (cpu.PC + 4) % m32 }

/-- Tags of `instrToBranchThreeOp`. -/
inductive BranchThreeOp
  | beq | bne | blt | bltu | bgt | bgtu | ble | bleu | bge | bgeu
deriving Repr, DecidableEq

/-- The comparison each `instrToBranchThreeOp` closure feeds to
`trueOrNext` (unsigned variants compare the `uint32` reinterpretations). -/
def branchThreeCmp : BranchThreeOp → Int → Int → Bool
  | .beq, a, b => a = b
  | .bne, a, b => a ≠ b
  | .blt, a, b => a < b
  | .bltu, a, b => toUInt32n a < toUInt32n b
  | .bgt, a, b => a > b
  | .bgtu, a, b => toUInt32n a > toUInt32n b
  | .ble, a, b => a ≤ b
  | .bleu, a, b => toUInt32n a ≤ toUInt32n b
  | .bge, a, b => a ≥ b
  | .bgeu, a, b => toUInt32n a ≥ toUInt32n b

/-- Keys of `instrToBranchThreeOp`. -/
def branchThreeOpOfString (s : String) : Option BranchThreeOp :=
  if s = "beq" then some .beq
  else if s = "bne" then some .bne
  else if s = "blt" then some .blt
  else if s = "bltu" then some .bltu
  else if s = "bgt" then some .bgt
  else if s = "bgtu" then some .bgtu
  else if s = "ble" then some .ble
  else if s = "bleu" then some .bleu
  else if s = "bge" then some .bge
  else if s = "bgeu" then some .bgeu
  else none

/-- Tags of `instrToBranchTwoOp`.  The mnemonic list
`branchTwoInstrTypes` also contains `blez`, which has no entry in the
operator map. -/
inductive BranchTwoOp
  | beqz | bnez | bltz | bgtz | bgez
deriving Repr, DecidableEq

/-- The comparison against zero of each `instrToBranchTwoOp` closure. -/
def branchTwoCmp : BranchTwoOp → Int → Bool
  | .beqz, a => a = 0
  | .bnez, a => a ≠ 0
  | .bltz, a => a < 0
  | .bgtz, a => a > 0
  | .bgez, a => a ≥ 0

/-- Keys of `instrToBranchTwoOp` (no `blez`). -/
def branchTwoOpOfString (s : String) : Option BranchTwoOp :=
  if s = "beqz" then some .beqz
  else if s = "bnez" then some .bnez
  else if s = "bltz" then some .bltz
  else if s = "bgtz" then some .bgtz
  else if s = "bgez" then some .bgez
  else none

/-- Tags of `instrToSetOp` / `instrToSetImmOp` (`slt(i)` signed,
`slt(i)u` unsigned). -/
inductive SetOp
  | slt | sltu
deriving Repr, DecidableEq

/-- The comparisons of `instrToSetOp`/`instrToSetImmOp`. -/
def setOpCmp : SetOp → Int → Int → Bool
  | .slt, a, b => a < b
  | .sltu, a, b => toUInt32n a < toUInt32n b

/-- Keys of `instrToSetOp`. -/
def setOpOfString (s : String) : Option SetOp :=
  if s = "slt" then some .slt
  else if s = "sltu" then some .sltu
  else none

/-- Keys of `instrToSetImmOp`. -/
def setImmOpOfString (s : String) : Option SetOp :=
  if s = "slti" then some .slt
  else if s = "sltiu" then some .sltu
  else none

/-! ### Instruction values -/

/-- The closed set of instruction variants (the implementations of the Go
`Instr` interface), each carrying its operand fields and operator tag. -/
inductive Instr
  | noOp (reason : String)
  | threePt (rd rs1 rs2 : Nat) (op : ThreePtOp)
  | threePtImm (rd rs1 : Nat) (imm : Int) (op : ThreePtImmOp)
  | loadImm (rd : Nat) (imm : Int) (op : LoadImmOp)
  | load (rd rs1 : Nat) (imm : Int) (op : LoadOp)
  | store (rs1 rs2 : Nat) (imm : Int) (op : StoreOp)
  | branchThree (rs1 rs2 : Nat) (destination : String) (op : BranchThreeOp)
  | branchTwo (rs1 : Nat) (destination : String) (op : BranchTwoOp)
  | jump (destination : String)
  | jumpAndLink (rd : Nat) (destination : String)
  | jumpAndLinkR (imm : Int) (rd : Nat) (rs1 : Nat)
  | set (rd rs1 rs2 : Nat) (op : SetOp)
  | setImm (rd rs1 : Nat) (imm : Int) (op : SetOp)
deriving Repr, DecidableEq

/-- `cpu.PC += 4` in `uint32` arithmetic. -/
def pc4 (pc : Nat) : Nat := (pc + 4) % m32

/-- The `Operate` method of every instruction variant: apply the
instruction's effect to the processor state.  Writes to register 0 are
skipped (`if instr.rd != 0`); `none` is a propagating Go panic. -/
def Operate : Instr → CPU → Option CPU
  | .noOp _, cpu => some { cpu with PC := pc4 cpu.PC }
  | .threePt rd rs1 rs2 op, cpu =>
    if rd ≠ 0 then
      match threePtOpFn op (regGet cpu rs1) (regGet cpu rs2) with
      | none => none
      | some v => some { cpu with Registers := cpu.Registers.set rd v, PC := pc4 cpu.PC }
    else some { cpu with PC := pc4 cpu.PC }
  | .threePtImm rd rs1 imm op, cpu =>
    if rd ≠ 0 then
      match threePtImmOpFn op (regGet cpu rs1) imm with
      | none => none
      | some v => some { cpu with Registers := cpu.Registers.set rd v, PC := pc4 cpu.PC }
    else some { cpu with PC := pc4 cpu.PC }
  | .loadImm rd imm op, cpu =>
    if rd ≠ 0 then
      some { cpu with Registers := cpu.Registers.set rd (loadImmOpFn op cpu imm),
                      PC := pc4 cpu.PC }
    else some { cpu with PC := pc4 cpu.PC }
  | .load rd rs1 imm op, cpu =>
    if rd ≠ 0 then
      match loadOpFn op cpu (regGet cpu rs1) imm with
      | none => none
      | some (v, cpu1) =>
        some { cpu1 with Registers := cpu1.Registers.set rd v, PC := pc4 cpu1.PC }
    else some { cpu with PC := pc4 cpu.PC }
  | .store rs1 rs2 imm op, cpu =>
    match storeOpFn op cpu (regGet cpu rs1) (regGet cpu rs2) imm with
    | none => none
    | some cpu1 => some { cpu1 with PC := pc4 cpu1.PC }
  | .branchThree rs1 rs2 destination op, cpu =>
    trueOrNext cpu (branchThreeCmp op (regGet cpu rs1) (regGet cpu rs2)) destination
  | .branchTwo rs1 destination op, cpu =>
    trueOrNext cpu (branchTwoCmp op (regGet cpu rs1)) destination
  | .jump destination, cpu =>
    (immOrLabel cpu destination).map fun imm =>
      { cpu with PC := (cpu.PC + toUInt32n imm) % m32 }
  | .jumpAndLink rd destination, cpu =>
    let cpu1 :=
      if rd ≠ 0 then
        { cpu with Registers := cpu.Registers.set rd (wrap32 (u32ToInt32 cpu.PC + 4)) }
      else cpu
    (immOrLabel cpu1 destination).map fun imm =>
      { cpu1 with PC := (cpu1.PC + toUInt32n imm) % m32 }
  | .jumpAndLinkR imm rd rs1, cpu =>
    let cpu1 :=
      if rd ≠ 0 then
        { cpu with Registers := cpu.Registers.set rd (wrap32 (u32ToInt32 cpu.PC + 4)) }
      else cpu
    some { cpu1 with PC := toUInt32n (imm + regGet cpu1 rs1) }
  | .set rd rs1 rs2 op, cpu =>
    if rd ≠ 0 then
      some { cpu with
        Registers := cpu.Registers.set rd
          (if setOpCmp op (regGet cpu rs1) (regGet cpu rs2) then 1 else 0)
        PC := pc4 cpu.PC }
    else some { cpu with PC := pc4 cpu.PC }
  | .setImm rd rs1 imm op, cpu =>
    if rd ≠ 0 then
      some { cpu with
        Registers := cpu.Registers.set rd
          (if setOpCmp op (regGet cpu rs1) imm then 1 else 0)
        PC := pc4 cpu.PC }
    else some { cpu with PC := pc4 cpu.PC }

/-! ### The decoder

`DecodeInstr` drives five `regexp` patterns.  Each pattern is modelled by an
executable matcher over `List Char`; `searchFrom` supplies the unanchored
leftmost-match search.  For these patterns greedy matching is deterministic
(every quantified class is disjoint from the literal that follows), except
for `.?` in the jump pattern, whose single backtracking step is spelled out
in `dotWordSpan`. -/

/-- Go's `\w` class: `[0-9A-Za-z_]`. -/
def isWordChar (c : Char) : Bool := c.isAlphanum || c = '_'

/-- Go's `\s` class: `[\t\n\f\r ]`. -/
def isSpaceChar (c : Char) : Bool :=
  c = '\t' || c = '\n' || c = '\x0c' || c = '\r' || c = ' '

/-- The whitespace set of `strings.TrimSpace` (ASCII part). -/
def isTrimSpaceChar (c : Char) : Bool :=
  c = '\t' || c = '\n' || c = '\x0b' || c = '\x0c' || c = '\r' || c = ' '

/-- `strings.TrimSpace` over the character list. -/
def goTrimSpace (cs : List Char) : List Char :=
  ((cs.dropWhile isTrimSpaceChar).reverse.dropWhile isTrimSpaceChar).reverse

/-- Split off the longest `\w*` prefix. -/
def wordSpan (cs : List Char) : List Char × List Char :=
  (cs.takeWhile isWordChar, cs.dropWhile isWordChar)

/-- Split off the longest `\s*` prefix. -/
def spaceSpan (cs : List Char) : List Char × List Char :=
  (cs.takeWhile isSpaceChar, cs.dropWhile isSpaceChar)

/-- Try a pattern at every start position, left to right: the unanchored
leftmost-match search of `FindStringSubmatch`/`FindString`.  (None of the
five patterns can match the empty input, so the empty tail is skipped.) -/
def searchFrom {α : Type} (matchAt : List Char → Option α) : List Char → Option α
  | [] => none
  | c :: rest =>
    match matchAt (c :: rest) with
    | some r => some r
    | none => searchFrom matchAt rest

/-- Match `(\-?\.?\w+)` (the third operand of `threePtRe`): optional minus,
optional dot, then a nonempty word run. -/
def lastGroupSpan (cs : List Char) : Option (List Char) :=
  match cs with
  | '-' :: '.' :: rest =>
    let w := rest.takeWhile isWordChar
    if w.isEmpty then none else some ('-' :: '.' :: w)
  | '-' :: rest =>
    let w := rest.takeWhile isWordChar
    if w.isEmpty then none else some ('-' :: w)
  | '.' :: rest =>
    let w := rest.takeWhile isWordChar
    if w.isEmpty then none else some ('.' :: w)
  | rest =>
    let w := rest.takeWhile isWordChar
    if w.isEmpty then none else some w

/-- Match `threePtRe` = `(\w+)\s+(\w+)\s*,\s*(\w+)\s*,\s*(\-?\.?\w+)` at the
start, returning the four capture groups. -/
def matchThreePtAt (cs : List Char) : Option (List String) :=
  let (w1, r1) := wordSpan cs
  if w1.isEmpty then none else
  let (sp, r2) := spaceSpan r1
  if sp.isEmpty then none else
  let (w2, r3) := wordSpan r2
  if w2.isEmpty then none else
  match (spaceSpan r3).2 with
  | ',' :: r5 =>
    let (w3, r7) := wordSpan (spaceSpan r5).2
    if w3.isEmpty then none else
    match (spaceSpan r7).2 with
    | ',' :: r9 =>
      match lastGroupSpan (spaceSpan r9).2 with
      | none => none
      | some w4 => some [w1.asString, w2.asString, w3.asString, w4.asString]
    | _ => none
  | _ => none

/-- Match `twoPtImmRe` = `(\w+)\s+(\w+)\s*,\s*(\w+)` at the start. -/
def matchTwoPtImmAt (cs : List Char) : Option (List String) :=
  let (w1, r1) := wordSpan cs
  if w1.isEmpty then none else
  let (sp, r2) := spaceSpan r1
  if sp.isEmpty then none else
  let (w2, r3) := wordSpan r2
  if w2.isEmpty then none else
  match (spaceSpan r3).2 with
  | ',' :: r5 =>
    let (w3, _) := wordSpan (spaceSpan r5).2
    if w3.isEmpty then none else
    some [w1.asString, w2.asString, w3.asString]
  | _ => none

/-- Match `loadStoreRe` = `(\w+)\s+(\w+)\s*,\s*(-?[0-9]+)\(([a-z0-9]+)\)`
at the start. -/
def matchLoadStoreAt (cs : List Char) : Option (List String) :=
  let (w1, r1) := wordSpan cs
  if w1.isEmpty then none else
  let (sp, r2) := spaceSpan r1
  if sp.isEmpty then none else
  let (w2, r3) := wordSpan r2
  if w2.isEmpty then none else
  match (spaceSpan r3).2 with
  | ',' :: r5 =>
    let afterComma := (spaceSpan r5).2
    let numAndRest : Option (List Char × List Char) :=
      match afterComma with
      | '-' :: r6 =>
        let d := r6.takeWhile Char.isDigit
        if d.isEmpty then none else some ('-' :: d, r6.dropWhile Char.isDigit)
      | r6 =>
        let d := r6.takeWhile Char.isDigit
        if d.isEmpty then none else some (d, r6.dropWhile Char.isDigit)
    match numAndRest with
    | none => none
    | some (num, r7) =>
      match r7 with
      | '(' :: r8 =>
        let base := r8.takeWhile fun c => c.isLower || c.isDigit
        if base.isEmpty then none else
        match r8.dropWhile (fun c => c.isLower || c.isDigit) with
        | ')' :: _ => some [w1.asString, w2.asString, num.asString, base.asString]
        | _ => none
      | _ => none
  | _ => none

/-- Match `.?\w+`: greedily one arbitrary (non-newline) character when a
word character follows it, else fall back to a bare word run. -/
def dotWordSpan (cs : List Char) : Option (List Char) :=
  match cs with
  | c1 :: c2 :: rest =>
    if c1 ≠ '\n' ∧ isWordChar c2 then some (c1 :: c2 :: rest.takeWhile isWordChar)
    else if isWordChar c1 then some [c1]
    else none
  | [c1] => if isWordChar c1 then some [c1] else none
  | [] => none

/-- Match `jumpRe` = `(\w)\s+(.?\w+)` at the start (note the first group is
a single word character). -/
def matchJumpAt (cs : List Char) : Option (List String) :=
  match cs with
  | c1 :: r1 =>
    if isWordChar c1 then
      let (sp, r2) := spaceSpan r1
      if sp.isEmpty then none else
      match dotWordSpan r2 with
      | none => none
      | some g2 => some [String.mk [c1], g2.asString]
    else none
  | [] => none

/-- Match `labelRe` = `(.+):` at the start: the greedy `.+` reaches to the
last colon of the current line (no newline crossed) that has at least one
character before it. -/
def labelMatchAt (cs : List Char) : Option String :=
  let seg := cs.takeWhile (· ≠ '\n')
  match seg.reverse.findIdx? (· = ':') with
  | none => none
  | some j =>
    let k := seg.length - 1 - j
    if 1 ≤ k then some ((seg.take k).asString) else none

/-- `labelRe.FindStringSubmatch` on a program line, returning the captured
label text when the line matches. -/
def labelFind (line : String) : Option String := searchFrom labelMatchAt line.toList

/-- Match `globalRe` = `.global\s(\w+)` at the start. -/
def globalMatchAt (cs : List Char) : Option String :=
  match cs with
  | c0 :: 'g' :: 'l' :: 'o' :: 'b' :: 'a' :: 'l' :: s :: r =>
    if c0 ≠ '\n' ∧ isSpaceChar s then
      let w := r.takeWhile isWordChar
      if w.isEmpty then none else some w.asString
    else none
  | _ => none

/-- `globalRe.FindStringSubmatch` on a program line. -/
def globalFind (line : String) : Option String := searchFrom globalMatchAt line.toList

/-! ### The per-shape parse functions

Each receives the token list the Go call site passes: the capture groups
(`tokens[1:]`) everywhere except `parseJal`/`parseJalr`, which are handed the
unsliced submatch array (full match at index 0). -/

/-- `parseThreePt` (panics — `none` — on an operator or register miss). -/
def parseThreePt (tokens : List String) : Option Instr :=
  match threePtOpOfString (tokens.getD 0 "") with
  | none => none
  | some op => do
    let rd ← getRegisterNumber (tokens.getD 1 "")
    let rs1 ← getRegisterNumber (tokens.getD 2 "")
    let rs2 ← getRegisterNumber (tokens.getD 3 "")
    some (.threePt rd rs1 rs2 op)

/-- `parseThreePtImm` (an operator miss yields a no-op, bad register or
immediate panics). -/
def parseThreePtImm (tokens : List String) : Option Instr :=
  match threePtImmOpOfString (tokens.getD 0 "") with
  | none => some (.noOp "Invalid Operation")
  | some op => do
    let rd ← getRegisterNumber (tokens.getD 1 "")
    let rs1 ← getRegisterNumber (tokens.getD 2 "")
    let imm ← parseImm (tokens.getD 3 "")
    some (.threePtImm rd rs1 imm op)

/-- `parseLoadImm`. -/
def parseLoadImm (tokens : List String) : Option Instr :=
  match loadImmOpOfString (tokens.getD 0 "") with
  | none => some (.noOp "Invalid Operation")
  | some op => do
    let rd ← getRegisterNumber (tokens.getD 1 "")
    let imm ← parseImm (tokens.getD 2 "")
    some (.loadImm rd imm op)

/-- `parseLoad`: `rd` from token 1, base register from token 3, offset from
token 2 (the memory shape `mnemonic reg, offset(base)`). -/
def parseLoad (tokens : List String) : Option Instr :=
  match loadOpOfString (tokens.getD 0 "") with
  | none => some (.noOp "Invalid Operation")
  | some op => do
    let rd ← getRegisterNumber (tokens.getD 1 "")
    let rs1 ← getRegisterNumber (tokens.getD 3 "")
    let imm ← parseImm (tokens.getD 2 "")
    some (.load rd rs1 imm op)

/-- `parseStore`: value register from token 1, base from token 3. -/
def parseStore (tokens : List String) : Option Instr :=
  match storeOpOfString (tokens.getD 0 "") with
  | none => some (.noOp "Invalid Operation")
  | some op => do
    let rs1 ← getRegisterNumber (tokens.getD 3 "")
    let rs2 ← getRegisterNumber (tokens.getD 1 "")
    let imm ← parseImm (tokens.getD 2 "")
    some (.store rs1 rs2 imm op)

/-- `parseBranchThree`. -/
def parseBranchThree (tokens : List String) : Option Instr :=
  match branchThreeOpOfString (tokens.getD 0 "") with
  | none => some (.noOp "Invalid Operation")
  | some op => do
    let rs1 ← getRegisterNumber (tokens.getD 1 "")
    let rs2 ← getRegisterNumber (tokens.getD 2 "")
    some (.branchThree rs1 rs2 (tokens.getD 3 "") op)

/-- `parseBranchTwo`. -/
def parseBranchTwo (tokens : List String) : Option Instr :=
  match branchTwoOpOfString (tokens.getD 0 "") with
  | none => some (.noOp "Invalid Operation")
  | some op => do
    let rs1 ← getRegisterNumber (tokens.getD 1 "")
    some (.branchTwo rs1 (tokens.getD 2 "") op)

/-- `parseJal`: reads indices 1 and 2 of the token list it is given.  Its
call site passes the *unsliced* submatch array, so index 1 is the matched
mnemonic text, not a register name. -/
def parseJal (tokens : List String) : Option Instr := do
  let rd ← getRegisterNumber (tokens.getD 1 "")
  some (.jumpAndLink rd (tokens.getD 2 ""))

/-- `parseJalr`: reads indices 1–3; its call site also passes the unsliced
submatch array. -/
def parseJalr (tokens : List String) : Option Instr := do
  let rd ← getRegisterNumber (tokens.getD 1 "")
  let rs1 ← getRegisterNumber (tokens.getD 2 "")
  let imm ← parseImm (tokens.getD 3 "")
  some (.jumpAndLinkR imm rd rs1)

/-- `parseSet`. -/
def parseSet (tokens : List String) : Option Instr :=
  match setOpOfString (tokens.getD 0 "") with
  | none => some (.noOp "Invalid Operation")
  | some op => do
    let rd ← getRegisterNumber (tokens.getD 1 "")
    let rs1 ← getRegisterNumber (tokens.getD 2 "")
    let rs2 ← getRegisterNumber (tokens.getD 3 "")
    some (.set rd rs1 rs2 op)

/-- `parseSetImm`. -/
def parseSetImm (tokens : List String) : Option Instr :=
  match setImmOpOfString (tokens.getD 0 "") with
  | none => some (.noOp "Invalid Operation")
  | some op => do
    let rd ← getRegisterNumber (tokens.getD 1 "")
    let rs1 ← getRegisterNumber (tokens.getD 2 "")
    let imm ← parseImm (tokens.getD 3 "")
    some (.setImm rd rs1 imm op)

/-- The mnemonic membership lists of instructions.go. -/
def threePtInstrTypes : List String :=
  ["add", "sub", "mul", "div", "rem", "and", "or", "xor", "sll", "srl", "sra"]

/-- `threePtImmInstrTypes`. -/
def threePtImmInstrTypes : List String :=
  ["addi", "andi", "ori", "xori", "slli", "srli", "srai"]

/-- `loadImmInstrTypes`. -/
def loadImmInstrTypes : List String := ["li", "lui", "auipc"]

/-- `loadInstrTypes`. -/
def loadInstrTypes : List String := ["lw", "lh", "lhu", "lb", "lbu"]

/-- `storeInstrTypes`. -/
def storeInstrTypes : List String := ["sw", "sh", "sb"]

/-- `branchThreeInstrTypes`. -/
def branchThreeInstrTypes : List String :=
  ["beq", "bne", "blt", "bltu", "bgt", "bgtu", "ble", "bleu", "bge", "bgeu"]

/-- `branchTwoInstrTypes` (contains `blez`, which the operator map lacks). -/
def branchTwoInstrTypes : List String :=
  ["beqz", "bnez", "bltz", "bgtz", "blez", "bgez"]

/-- `setInstrTypes`. -/
def setInstrTypes : List String := ["slt", "sltu"]

/-- `setImmInstrTypes`. -/
def setImmInstrTypes : List String := ["slti", "sltiu"]

/-- The tail of `DecodeInstr` after the `jalr` block, which lacks a
`return`: control falls through to the `mv` check and the final
`return &NoOp{}`. -/
def decodeTail (instrTypeToken : String) (cs : List Char) : Option Instr :=
  if instrTypeToken = "mv" then
    match searchFrom matchTwoPtImmAt cs with
    | none => some (.noOp "")
    | some tokens => do
      let rd ← getRegisterNumber (tokens.getD 1 "")
      let rs1 ← getRegisterNumber (tokens.getD 2 "")
      some (.threePtImm rd rs1 0 .mv)
  else some (.noOp "")

/-- `DecodeInstr`: trim the line, classify its first word-token against the
mnemonic lists, run the shape's pattern and parse function.  A failed
pattern yields a reason-less no-op.  The `jal`/`jalr` branches reproduce the
source faithfully: `jal` hands `parseJal` the unsliced submatch array, and
the `jalr` branch evaluates `parseJalr` (with the unsliced array) without
returning its result, falling through to `decodeTail`. -/
def DecodeInstr (instr_str_raw : String) : Option Instr :=
  let cs := goTrimSpace instr_str_raw.toList
  let instrTypeToken := (cs.takeWhile isWordChar).asString
  if threePtInstrTypes.contains instrTypeToken then
    match searchFrom matchThreePtAt cs with
    | none => some (.noOp "")
    | some tokens => parseThreePt tokens
  else if threePtImmInstrTypes.contains instrTypeToken then
    match searchFrom matchThreePtAt cs with
    | none => some (.noOp "")
    | some tokens => parseThreePtImm tokens
  else if loadImmInstrTypes.contains instrTypeToken then
    match searchFrom matchTwoPtImmAt cs with
    | none => some (.noOp "")
    | some tokens => parseLoadImm tokens
  else if loadInstrTypes.contains instrTypeToken then
    match searchFrom matchLoadStoreAt cs with
    | none => some (.noOp "")
    | some tokens => parseLoad tokens
  else if storeInstrTypes.contains instrTypeToken then
    match searchFrom matchLoadStoreAt cs with
    | none => some (.noOp "")
    | some tokens => parseStore tokens
  else if branchThreeInstrTypes.contains instrTypeToken then
    match searchFrom matchThreePtAt cs with
    | none => some (.noOp "")
    | some tokens => parseBranchThree tokens
  else if branchTwoInstrTypes.contains instrTypeToken then
    match searchFrom matchTwoPtImmAt cs with
    | none => some (.noOp "")
    | some tokens => parseBranchTwo tokens
  else if setInstrTypes.contains instrTypeToken then
    match searchFrom matchThreePtAt cs with
    | none => some (.noOp "")
    | some tokens => parseSet tokens
  else if setImmInstrTypes.contains instrTypeToken then
    match searchFrom matchThreePtAt cs with
    | none => some (.noOp "")
    | some tokens => parseSetImm tokens
  else if instrTypeToken = "j" then
    match searchFrom matchJumpAt cs with
    | none => some (.noOp "")
    | some tokens => some (.jump (tokens.getD 1 ""))
  else if instrTypeToken = "call" then
    match searchFrom matchJumpAt cs with
    | none => some (.noOp "")
    | some tokens => some (.jumpAndLink 1 (tokens.getD 1 ""))
  else if instrTypeToken = "jr" then
    match searchFrom matchJumpAt cs with
    | none => some (.noOp "")
    | some tokens =>
      (getRegisterNumber (tokens.getD 1 "")).map fun rs1 => .jumpAndLinkR 0 0 rs1
  else if instrTypeToken = "jal" then
    match searchFrom matchTwoPtImmAt cs with
    | none => some (.noOp "")
    | some tokens => parseJal ("" :: tokens)
  else if instrTypeToken = "jalr" then
    match searchFrom matchThreePtAt cs with
    | none => some (.noOp "")
    | some tokens =>
      match parseJalr ("" :: tokens) with
      | none => none
      | some _ => decodeTail instrTypeToken cs
  else decodeTail instrTypeToken cs

/-! ### Program loading and execution -/

/-- The label/entry-point scan of `LoadInstructions`: walk the lines in
order with their indices; a `labelRe` match binds the label to
`uint32((i*4) + 16 + 4)` (a later binding shadows an earlier one in the
association list, as in the Go map); otherwise a `globalRe` match replaces
the entry point. -/
def loadLoop (labels : List (String × Nat)) (entry : String) (i : Nat) :
    List String → List (String × Nat) × String
  | [] => (labels, entry)
  | line :: rest =>
    match labelFind line with
    | some label => loadLoop ((label, ((i * 4) + 16 + 4) % m32) :: labels) entry (i + 1) rest
    | none =>
      match globalFind line with
      | some g => loadLoop labels g (i + 1) rest
      | none => loadLoop labels entry (i + 1) rest

/-- The current instruction slot `int((cpu.PC - 16) / 4)`; the `uint32`
subtraction wraps when `PC < 16`. -/
def instrNum (pc : Nat) : Nat := ((pc + m32 - 16) % m32) / 4

/-- `LoadInstructions`: reset the entry point, scan every line for
label/global matches (labels are added to the existing table, which is not
cleared), install the new program text, and recompute `Done` as
`instr_num > len(instructions) - 1` (a Go `int` comparison, so an empty
program gives `0 > -1`). -/
def LoadInstructions (cpu : CPU) (instrs : List String) : CPU :=
  let scanned := loadLoop cpu.Labels "" 0 instrs
  { cpu with
    Labels := scanned.1
    entryPoint := scanned.2
    instructions := instrs
    Done := decide (((instrs.length : Int) - 1) < (instrNum cpu.PC : Int)) }

/-- `RunNextInstruction`: a PC below the reserved base, or a slot past the
last instruction, sets `Done` and returns without executing; otherwise the
line at the current slot is decoded and applied.  No bounds check happens
after the instruction runs. -/
def RunNextInstruction (cpu : CPU) : Option CPU :=
  if cpu.PC < 16 then some { cpu with Done := true }
  else if ((cpu.instructions.length : Int) - 1) < (instrNum cpu.PC : Int) then
    some { cpu with Done := true }
  else
    match DecodeInstr (cpu.instructions.getD (instrNum cpu.PC) "") with
    | none => none
    | some instr => Operate instr cpu

/-- The `for !cpu.Done` loop of `RunProgram`, with explicit fuel standing
in for the unbounded Go loop (`none` on exhausted fuel models
non-termination, `none` from a step models a propagating panic). -/
def RunProgramAux : Nat → CPU → Option CPU
  | 0, _ => none
  | fuel + 1, cpu =>
    if cpu.Done then some cpu
    else
      match RunNextInstruction cpu with
      | none => none
      | some cpu1 => RunProgramAux fuel cpu1

/-- `RunProgram`: loop to `Done`, then reset the PC to the base 16 and
clear `Done` (registers, memory, labels and history are left as the run
produced them). -/
def RunProgram (fuel : Nat) (cpu : CPU) : Option CPU :=
  (RunProgramAux fuel cpu).map fun c => { c with PC := 16, Done := false }

/-! ## Helper lemmas -/

/-- Writing one list cell leaves every other index unchanged. -/
theorem getD_set_of_ne {α : Type} (l : List α) (i j : Nat) (v d : α) (h : i ≠ j) :
    (l.set i v).getD j d = l.getD j d := by
  induction l generalizing i j with
  | nil => simp
  | cons a as ih =>
    cases i with
    | zero =>
      cases j with
      | zero => exact absurd rfl h
      | succ j' => simp [List.set]
    | succ i' =>
      cases j with
      | zero => simp [List.set]
      | succ j' =>
        simp only [List.set, List.getD, List.get?]
        exact ih i' j' (fun hc => h (by rw [hc]))

/-- Reading back the cell just written, when the index is in range. -/
theorem getD_set_self {α : Type} (l : List α) (i : Nat) (v d : α) (h : i < l.length) :
    (l.set i v).getD i d = v := by
  induction l generalizing i with
  | nil => simp at h
  | cons a as ih =>
    cases i with
    | zero => simp
    | succ i' =>
      simp only [List.set, List.getD, List.get?]
      exact ih i' (by simpa using h)

/-- `takeWhile` keeps a list all of whose elements satisfy the predicate. -/
theorem takeWhile_eq_self_of_all {α : Type} (p : α → Bool) (l : List α)
    (h : ∀ c ∈ l, p c = true) : l.takeWhile p = l := by
  induction l with
  | nil => rfl
  | cons a as ih =>
    simp only [List.takeWhile, h a (by simp)]
    exact congrArg (a :: ·) (ih fun c hc => h c (by simp [hc]))

/-! ## Claim theorems -/

/-- **C1.**  Decoding a well-formed `jalr rd, rs1, imm` line is claimed to
produce a jump-and-link-register instruction.  In fact the decoder's `jalr`
branch hands `parseJalr` the *unsliced* submatch array — token 1 is the
mnemonic text `"jalr"`, which `getRegisterNumber` rejects with a panic —
and its result is discarded anyway (the branch lacks a `return`).  So the
decode of the well-formed line `"jalr x1, x2, 4"` panics (`none`); the
claimed execution semantics does live in `JumpAndLinkRInstr.Operate`
(second conjunct: with a nonzero destination distinct from `rs1`, it links
`PC+4` into `rd` and sets `PC` to `rs1 + imm` as a `uint32`), but the
decoder can never reach it. -/
theorem C1_jalr_decode_panics :
    DecodeInstr "jalr x1, x2, 4" = none ∧
    ∀ (cpu : CPU) (imm : Int) (rd rs1 : Nat), rd ≠ 0 → rs1 ≠ rd →
      Operate (.jumpAndLinkR imm rd rs1) cpu =
        some { cpu with
          Registers := cpu.Registers.set rd (wrap32 (u32ToInt32 cpu.PC + 4)),
          PC := toUInt32n (imm + regGet cpu rs1) } := by
  constructor
  · decide
  · intro cpu imm rd rs1 hrd hne
    simp only [Operate, regGet, if_pos hrd]
    rw [getD_set_of_ne _ _ _ _ _ fun h => hne h.symm]

/-- Witness for C1: the `Operate` conjunct applied at `rd = 1`, `rs1 = 2`,
`imm = 4` on a fresh CPU (`PC = 16`, `sp = 16`): the link register receives
20 and the PC becomes `16 + 4 = 20`. -/
theorem C1_jalr_decode_panics_witness :
    Operate (.jumpAndLinkR 4 1 2) (NewCPU 16) =
      some { NewCPU 16 with
        Registers := (NewCPU 16).Registers.set 1 (wrap32 (u32ToInt32 (NewCPU 16).PC + 4)),
        PC := toUInt32n (4 + regGet (NewCPU 16) 2) } :=
  C1_jalr_decode_panics.2 (NewCPU 16) 4 1 2 (by decide) (by decide)

/-- **C2.**  The claim says the signed loads sign-extend.  They do not:
`loadHalf`/`loadByte` return the raw `uint16`/`uint8`, and the `lh`/`lb`
closures convert them with `int32(...)`, a zero -extension identical to
`lhu`/`lbu`.  Storing the half-word `-1` (bytes `0xFFFF`) at address 0 and
loading it back with `lh` yields `65535`, not `-1`; a stored byte `-1`
read with `lb` yields `255`. -/
theorem C2_signed_loads_zero_extend :
    (((storeHalf (NewCPU 16) 0 (-1)).bind fun c => loadOpFn .lh c 0 0).map Prod.fst
        = some 65535) ∧
    (((storeByte (NewCPU 16) 0 (-1)).bind fun c => loadOpFn .lb c 0 0).map Prod.fst
        = some 255) := by
  constructor
  · decide
  · decide

/-- **C3, counterexample.**  Loading `["old:"]` and then loading
`["new:"]` is claimed to leave a label table containing exactly the labels
of the second program; in fact the table still resolves `old` (the Go map
is never cleared). -/
theorem C3_labels_not_reset_cex :
    (LoadInstructions (LoadInstructions (NewCPU 16) ["old:"]) ["new:"]).Labels.lookup "old"
      = some 20 := by
  decide

/-- **C4, counterexample.**  On the one-line program `["li x1, 1"]` a
single step from the `Ready` state at `PC = 16` executes the instruction
and returns with `PC = 20` — one slot past the last instruction — yet with
`Done` still `false`: the bounds are *not* recomputed after the
instruction is applied, contradicting the claim that the engine is `Done`
at the moment the step returns. -/
theorem C4_no_post_check_cex :
    (RunNextInstruction (LoadInstructions (NewCPU 16) ["li x1, 1"])).map
        (fun c => (c.PC, c.Done))
      = some (20, false) := by
  decide

/-- **C8, counterexample.**  A store at address `2^32 - 1` of a 16-byte
memory is a failing access (its address plus 4 exceeds the memory length),
but it is *not* a non-fatal no-op: the `uint32` bounds check computes
`address + 4 = 3`, passes, and the slice expression `Memory[address:]`
panics — modelled by `none`.  The matching load panics the same way. -/
theorem C8_wrap_access_panics_cex :
    storeWord (NewCPU 16) 4294967295 5 = none ∧
    loadWord (NewCPU 16) 4294967295 = none := by
  constructor
  · decide
  · decide

/-- The label bindings contributed by one load of a program: one entry per
`labelRe`-matching line, bound to `uint32(index*4 + 16 + 4)`, listed with
later lines first (so that association-list lookup, like the Go map, sees
the last definition of a duplicated name). -/
def newLabels (i : Nat) : List String → List (String × Nat)
  | [] => []
  | line :: rest =>
    match labelFind line with
    | some label => newLabels (i + 1) rest ++ [(label, ((i * 4) + 16 + 4) % m32)]
    | none => newLabels (i + 1) rest

/-- The label scan accumulates onto whatever table it starts from. -/
theorem loadLoop_fst (instrs : List String) (labels : List (String × Nat))
    (e : String) (i : Nat) :
    (loadLoop labels e i instrs).1 = newLabels i instrs ++ labels := by
  induction instrs generalizing labels e i with
  | nil => rfl
  | cons line rest ih =>
    simp only [loadLoop, newLabels]
    cases labelFind line with
    | some label => rw [ih]; simp
    | none =>
      cases globalFind line <;> simp only [ih]

/-- **C3, amended.**  Loading a new program *adds* a binding for every
label line of the new text (later duplicates shadowing earlier ones) but
keeps the previously loaded entries underneath — the table is not reset.
The `Done`/`Ready` state is recomputed from the new program length and the
current PC (`instr_num > len - 1` as a Go `int` comparison), and the
registers, memory and PC are left unchanged. -/
theorem C3_load_merges_labels (cpu : CPU) (instrs : List String) :
    (LoadInstructions cpu instrs).Labels = newLabels 0 instrs ++ cpu.Labels ∧
    (LoadInstructions cpu instrs).Registers = cpu.Registers ∧
    (LoadInstructions cpu instrs).Memory = cpu.Memory ∧
    (LoadInstructions cpu instrs).PC = cpu.PC ∧
    (LoadInstructions cpu instrs).instructions = instrs ∧
    (LoadInstructions cpu instrs).Done
      = decide (((instrs.length : Int) - 1) < (instrNum cpu.PC : Int)) := by
  refine ⟨?_, rfl, rfl, rfl, rfl, rfl⟩
  simp only [LoadInstructions, loadLoop_fst]

/-- **C4, amended.**  `single_step` checks the PC bounds *on entry*: a PC
below the reserved base 16, or pointing past the last instruction, makes
the step set `Done` and return without executing anything; otherwise the
step decodes the line at the current slot and applies it, returning
without any further bounds check (so a PC the instruction moved out of
bounds is only noticed by the *next* step — see the counterexample). -/
theorem C4_entry_bounds_check (cpu : CPU) :
    (cpu.PC < 16 → RunNextInstruction cpu = some { cpu with Done := true }) ∧
    (¬ cpu.PC < 16 → ((cpu.instructions.length : Int) - 1) < (instrNum cpu.PC : Int) →
      RunNextInstruction cpu = some { cpu with Done := true }) ∧
    (¬ cpu.PC < 16 → ¬ (((cpu.instructions.length : Int) - 1) < (instrNum cpu.PC : Int)) →
      RunNextInstruction cpu =
        (DecodeInstr (cpu.instructions.getD (instrNum cpu.PC) "")).bind
          fun instr => Operate instr cpu) := by
  refine ⟨fun h1 => ?_, fun h1 h2 => ?_, fun h1 h2 => ?_⟩
  · simp only [RunNextInstruction, if_pos h1]
  · simp only [RunNextInstruction, if_neg h1, if_pos h2]
  · simp only [RunNextInstruction, if_neg h1, if_neg h2]
    cases DecodeInstr (cpu.instructions.getD (instrNum cpu.PC) "") <;> rfl

/-- Witness for C4 (amended): the three entry cases at concrete states —
`PC = 0` (below base), a fresh CPU with the empty program (slot 0 past the
end), and a fresh CPU with a one-line program (in bounds, so the step is
exactly decode-then-apply). -/
theorem C4_entry_bounds_check_witness :
    (RunNextInstruction { NewCPU 16 with PC := 0 }
      = some { { NewCPU 16 with PC := 0 } with Done := true }) ∧
    (RunNextInstruction (NewCPU 16) = some { NewCPU 16 with Done := true }) ∧
    (RunNextInstruction (LoadInstructions (NewCPU 16) ["li x1, 1"])
      = (DecodeInstr ((LoadInstructions (NewCPU 16) ["li x1, 1"]).instructions.getD
            (instrNum (LoadInstructions (NewCPU 16) ["li x1, 1"]).PC) "")).bind
          fun instr => Operate instr (LoadInstructions (NewCPU 16) ["li x1, 1"])) :=
  ⟨(C4_entry_bounds_check { NewCPU 16 with PC := 0 }).1 (by decide),
   (C4_entry_bounds_check (NewCPU 16)).2.1 (by decide) (by decide),
   (C4_entry_bounds_check (LoadInstructions (NewCPU 16) ["li x1, 1"])).2.2
     (by decide) (by decide)⟩

/-- A line that is exactly a nonempty identifier followed by a colon
matches `labelRe` at position 0 with the identifier as its capture. -/
theorem labelMatchAt_ident (name : String) (h1 : name.data ≠ [])
    (h2 : ∀ c ∈ name.data, isWordChar c = true) :
    labelMatchAt (name.data ++ [':']) = some name := by
  have hseg : (name.data ++ [':']).takeWhile (fun c => c ≠ '\n') = name.data ++ [':'] := by
    apply takeWhile_eq_self_of_all
    intro ch hch
    rcases List.mem_append.mp hch with h | h
    · have hw := h2 ch h
      simp only [decide_eq_true_eq]
      intro hc
      rw [hc] at hw
      exact absurd hw (by decide)
    · simp only [List.mem_singleton] at h
      rw [h]; decide
  simp only [labelMatchAt, hseg, List.reverse_append, List.reverse_cons, List.reverse_nil,
    List.nil_append, List.singleton_append]
  rw [List.findIdx?_cons]
  simp only [decide_True, if_true, List.length_append, List.length_singleton,
    Nat.add_sub_cancel, Nat.sub_zero]
  rw [if_pos (show 1 ≤ name.data.length from List.length_pos.mpr h1), List.take_left]
  rfl

/-- `labelRe.FindStringSubmatch` applied to an identifier-colon line
captures the identifier. -/
theorem labelFind_ident (name : String) (h1 : name.data ≠ [])
    (h2 : ∀ c ∈ name.data, isWordChar c = true) :
    labelFind (name ++ ":") = some name := by
  have hdata : (name ++ ":").toList = name.data ++ [':'] := rfl
  unfold labelFind
  rw [hdata]
  obtain ⟨c, cs', heq⟩ : ∃ c cs', name.data = c :: cs' := by
    cases hd : name.data with
    | nil => exact absurd hd h1
    | cons c cs' => exact ⟨c, cs', rfl⟩
  have hm : labelMatchAt (c :: (cs' ++ [':'])) = some name := by
    rw [show c :: (cs' ++ [':']) = (c :: cs') ++ [':'] from rfl, ← heq]
    exact labelMatchAt_ident name h1 h2
  rw [heq]
  simp only [List.cons_append, searchFrom, List.append_eq]
  rw [hm]

/-- Association-list lookup distributes over append. -/
theorem lookup_append {α β : Type} [BEq α] (l1 l2 : List (α × β)) (a : α) :
    (l1 ++ l2).lookup a = ((l1.lookup a).orElse fun _ => l2.lookup a) := by
  induction l1 with
  | nil => rfl
  | cons p l1' ih =>
    simp only [List.cons_append, List.lookup]
    cases a == p.1 <;> simp [ih]

/-- If no line of the program defines `name`, the scan contributes no
binding for it. -/
theorem lookup_newLabels_of_not_def (name : String) (rest : List String) (k : Nat)
    (h : ∀ j, j < rest.length → labelFind (rest.getD j "") ≠ some name) :
    (newLabels k rest).lookup name = none := by
  induction rest generalizing k with
  | nil => rfl
  | cons line rest' ih =>
    have h0 := h 0 (by simp)
    simp only [List.getD_cons_zero] at h0
    have hrest : ∀ j, j < rest'.length → labelFind (rest'.getD j "") ≠ some name := by
      intro j hj
      have := h (j + 1) (by simpa using Nat.succ_lt_succ hj)
      simpa using this
    simp only [newLabels]
    cases hl : labelFind line with
    | none => exact ih (k + 1) hrest
    | some lab =>
      have hne : lab ≠ name := fun hc => h0 (by rw [hl, hc])
      rw [lookup_append, ih (k + 1) hrest]
      simp [List.lookup, beq_false_of_ne fun hc => hne hc.symm]

/-- If line `i` defines `name` and no later line does, the scan binds
`name` to `uint32((k + i) * 4 + 20)` (with `k` the index offset). -/
theorem lookup_newLabels_of_def (name : String) (instrs : List String) (i k : Nat)
    (h1 : i < instrs.length)
    (h2 : labelFind (instrs.getD i "") = some name)
    (h3 : ∀ j, i < j → j < instrs.length → labelFind (instrs.getD j "") ≠ some name) :
    (newLabels k instrs).lookup name = some (((k + i) * 4 + 20) % m32) := by
  induction instrs generalizing i k with
  | nil => simp at h1
  | cons line rest ih =>
    cases i with
    | zero =>
      simp only [List.getD_cons_zero] at h2
      have hrest : ∀ j, j < rest.length → labelFind (rest.getD j "") ≠ some name := by
        intro j hj
        have := h3 (j + 1) (Nat.succ_pos j) (by simpa using Nat.succ_lt_succ hj)
        simpa using this
      simp only [newLabels, h2]
      rw [lookup_append, lookup_newLabels_of_not_def name rest (k + 1) hrest]
      simp [List.lookup, Nat.add_zero]
    | succ i' =>
      simp only [List.getD_cons_succ] at h2
      have h1' : i' < rest.length := by simpa using Nat.lt_of_succ_lt_succ h1
      have h3' : ∀ j, i' < j → j < rest.length → labelFind (rest.getD j "") ≠ some name := by
        intro j hj1 hj2
        have := h3 (j + 1) (Nat.succ_lt_succ hj1) (by simpa using Nat.succ_lt_succ hj2)
        simpa using this
      have harith : (k + 1 + i') = (k + (i' + 1)) := by omega
      simp only [newLabels]
      cases hl : labelFind line with
      | none => rw [ih i' (k + 1) h1' h2 h3', harith]
      | some lab =>
        rw [lookup_append, ih i' (k + 1) h1' h2 h3', harith]
        rfl

/-- **C5.**  Label resolution is positional: if line `i` of the loaded
program is exactly `name` (a nonempty identifier) followed by a colon, and
no later line redefines `name`, then the loaded label table resolves
`name` to `(i * 4) + 16 + 4` — the address of the instruction slot right
after the label line.  (With `["main:", "li x1, 100"]` and base 16 this is
20; see the witness.) -/
theorem C5_label_positional (cpu : CPU) (instrs : List String) (i : Nat) (name : String)
    (h0 : i * 4 + 20 < m32)
    (h1 : i < instrs.length)
    (h2 : instrs.getD i "" = name ++ ":")
    (h3 : name.data ≠ [])
    (h4 : ∀ c ∈ name.data, isWordChar c = true)
    (h5 : ∀ j, i < j → j < instrs.length → labelFind (instrs.getD j "") ≠ some name) :
    (LoadInstructions cpu instrs).Labels.lookup name = some (i * 4 + 20) := by
  have hLabels : (LoadInstructions cpu instrs).Labels = newLabels 0 instrs ++ cpu.Labels := by
    simp only [LoadInstructions, loadLoop_fst]
  have hdef : labelFind (instrs.getD i "") = some name := by
    rw [h2]; exact labelFind_ident name h3 h4
  rw [hLabels, lookup_append, lookup_newLabels_of_def name instrs i 0 h1 hdef h5]
  simp only [Nat.zero_add, Option.orElse]
  rw [Nat.mod_eq_of_lt h0]

/-- A word load never touches the register file. -/
theorem loadWord_preserves (cpu : CPU) (a : Nat) (v : Int) (c : CPU)
    (h : loadWord cpu a = some (v, c)) : c.Registers = cpu.Registers := by
  unfold loadWord at h
  split at h
  · simp only [Option.some.injEq, Prod.mk.injEq] at h
    rw [← h.2]
  · split at h
    · exact absurd h (by simp)
    · simp only [Option.some.injEq, Prod.mk.injEq] at h
      rw [← h.2]

/-- A half-word load never touches the register file. -/
theorem loadHalf_preserves (cpu : CPU) (a : Nat) (v : Nat) (c : CPU)
    (h : loadHalf cpu a = some (v, c)) : c.Registers = cpu.Registers := by
  unfold loadHalf at h
  split at h
  · simp only [Option.some.injEq, Prod.mk.injEq] at h
    rw [← h.2]
  · split at h
    · exact absurd h (by simp)
    · simp only [Option.some.injEq, Prod.mk.injEq] at h
      rw [← h.2]

/-- A byte load never touches the register file. -/
theorem loadByte_preserves (cpu : CPU) (a : Nat) (v : Nat) (c : CPU)
    (h : loadByte cpu a = some (v, c)) : c.Registers = cpu.Registers := by
  unfold loadByte at h
  split at h
  · simp only [Option.some.injEq, Prod.mk.injEq] at h
    rw [← h.2]
  · split at h
    · exact absurd h (by simp)
    · simp only [Option.some.injEq, Prod.mk.injEq] at h
      rw [← h.2]

/-- Every load closure leaves the register file unchanged. -/
theorem loadOpFn_preserves (op : LoadOp) (cpu : CPU) (a b v : Int) (c : CPU)
    (h : loadOpFn op cpu a b = some (v, c)) : c.Registers = cpu.Registers := by
  cases op with
  | lw => exact loadWord_preserves cpu _ v c h
  | lh =>
    simp only [loadOpFn, Option.map_eq_some'] at h
    obtain ⟨p, hp, hpc⟩ := h
    cases hpc
    exact loadHalf_preserves cpu _ p.1 p.2 (by rw [← hp])
  | lhu =>
    simp only [loadOpFn, Option.map_eq_some'] at h
    obtain ⟨p, hp, hpc⟩ := h
    cases hpc
    exact loadHalf_preserves cpu _ p.1 p.2 (by rw [← hp])
  | lb =>
    simp only [loadOpFn, Option.map_eq_some'] at h
    obtain ⟨p, hp, hpc⟩ := h
    cases hpc
    exact loadByte_preserves cpu _ p.1 p.2 (by rw [← hp])
  | lbu =>
    simp only [loadOpFn, Option.map_eq_some'] at h
    obtain ⟨p, hp, hpc⟩ := h
    cases hpc
    exact loadByte_preserves cpu _ p.1 p.2 (by rw [← hp])

/-- A word store never touches the register file. -/
theorem storeWord_preserves (cpu : CPU) (a : Nat) (w : Int) (c : CPU)
    (h : storeWord cpu a w = some c) : c.Registers = cpu.Registers := by
  unfold storeWord at h
  split at h
  · simp only [Option.some.injEq] at h
    rw [← h]
  · split at h
    · exact absurd h (by simp)
    · simp only [Option.some.injEq] at h
      rw [← h]

/-- A half-word store never touches the register file. -/
theorem storeHalf_preserves (cpu : CPU) (a : Nat) (w : Int) (c : CPU)
    (h : storeHalf cpu a w = some c) : c.Registers = cpu.Registers := by
  unfold storeHalf at h
  split at h
  · simp only [Option.some.injEq] at h
    rw [← h]
  · split at h
    · exact absurd h (by simp)
    · simp only [Option.some.injEq] at h
      rw [← h]

/-- A byte store never touches the register file. -/
theorem storeByte_preserves (cpu : CPU) (a : Nat) (w : Int) (c : CPU)
    (h : storeByte cpu a w = some c) : c.Registers = cpu.Registers := by
  unfold storeByte at h
  split at h
  · simp only [Option.some.injEq] at h
    rw [← h]
  · split at h
    · exact absurd h (by simp)
    · simp only [Option.some.injEq] at h
      rw [← h]

/-- Every store closure leaves the register file unchanged. -/
theorem storeOpFn_preserves (op : StoreOp) (cpu : CPU) (a b w : Int) (c : CPU)
    (h : storeOpFn op cpu a b w = some c) : c.Registers = cpu.Registers := by
  cases op with
  | sw => exact storeWord_preserves cpu _ b c h
  | sh => exact storeHalf_preserves cpu _ b c h
  | sb => exact storeByte_preserves cpu _ b c h

/-- Branch resolution only moves the PC. -/
theorem trueOrNext_preserves (cpu : CPU) (b : Bool) (dest : String) (c : CPU)
    (h : trueOrNext cpu b dest = some c) : c.Registers = cpu.Registers := by
  unfold trueOrNext at h
  split at h
  · simp only [Option.map_eq_some'] at h
    obtain ⟨imm, _, hc⟩ := h
    rw [← hc]
  · simp only [Option.some.injEq] at h
    rw [← h]

/-- Witness for C5, the spec's own example: in `["main:", "li x1, 100"]`
(base 16) the label `main` resolves to 20. -/
theorem C5_label_positional_witness :
    (LoadInstructions (NewCPU 16) ["main:", "li x1, 100"]).Labels.lookup "main"
      = some 20 :=
  C5_label_positional (NewCPU 16) ["main:", "li x1, 100"] 0 "main"
    (by decide) (by decide) (by decide) (by decide) (by decide)
    (fun j hj1 hj2 => by
      have hj2' : j < 2 := by simpa using hj2
      have : j = 1 := by omega
      subst this
      decide)

/-- **C6.**  Register 0 is observably zero in every reachable state: if it
reads zero before a (non-panicking) execution of *any* instruction — the
destination-register guards `if instr.rd != 0` skip every write to index 0
— it reads zero after; and for every destination `1 ≤ i ≤ 31` an
instruction that writes `v` there (here `li xi, v`) leaves register `i`
holding `v`. -/
theorem C6_register_zero :
    (∀ (instr : Instr) (cpu cpu' : CPU), regGet cpu 0 = 0 →
        Operate instr cpu = some cpu' → regGet cpu' 0 = 0) ∧
    (∀ (i : Nat) (v : Int) (cpu : CPU), 1 ≤ i → i ≤ 31 → cpu.Registers.length = 32 →
        ∃ cpu', Operate (.loadImm i v .li) cpu = some cpu' ∧ regGet cpu' i = v) := by
  constructor
  · intro instr cpu cpu' h0 h
    cases instr with
    | noOp reason =>
      simp only [Operate, Option.some.injEq] at h
      rw [← h]; exact h0
    | threePt rd rs1 rs2 op =>
      simp only [Operate] at h
      split at h
      · split at h
        · exact absurd h (by simp)
        · simp only [Option.some.injEq] at h
          rw [← h]
          simp only [regGet] at h0 ⊢
          rw [getD_set_of_ne _ _ _ _ _ (by assumption)]
          exact h0
      · simp only [Option.some.injEq] at h
        rw [← h]; exact h0
    | threePtImm rd rs1 imm op =>
      simp only [Operate] at h
      split at h
      · split at h
        · exact absurd h (by simp)
        · simp only [Option.some.injEq] at h
          rw [← h]
          simp only [regGet] at h0 ⊢
          rw [getD_set_of_ne _ _ _ _ _ (by assumption)]
          exact h0
      · simp only [Option.some.injEq] at h
        rw [← h]; exact h0
    | loadImm rd imm op =>
      simp only [Operate] at h
      split at h
      · simp only [Option.some.injEq] at h
        rw [← h]
        simp only [regGet] at h0 ⊢
        rw [getD_set_of_ne _ _ _ _ _ (by assumption)]
        exact h0
      · simp only [Option.some.injEq] at h
        rw [← h]; exact h0
    | load rd rs1 imm op =>
      simp only [Operate] at h
      split at h
      · split at h
        next heq => exact absurd h (by simp)
        next v cpu1 heq =>
          simp only [Option.some.injEq] at h
          rw [← h]
          simp only [regGet] at h0 ⊢
          rw [getD_set_of_ne _ _ _ _ _ (by assumption),
            loadOpFn_preserves op cpu _ _ _ _ heq]
          exact h0
      · simp only [Option.some.injEq] at h
        rw [← h]; exact h0
    | store rs1 rs2 imm op =>
      simp only [Operate] at h
      split at h
      next heq => exact absurd h (by simp)
      next cpu1 heq =>
        simp only [Option.some.injEq] at h
        rw [← h]
        simp only [regGet] at h0 ⊢
        rw [storeOpFn_preserves op cpu _ _ _ _ heq]
        exact h0
    | branchThree rs1 rs2 dest op =>
      simp only [Operate] at h
      simp only [regGet] at h0 ⊢
      rw [trueOrNext_preserves cpu _ dest cpu' h]
      exact h0
    | branchTwo rs1 dest op =>
      simp only [Operate] at h
      simp only [regGet] at h0 ⊢
      rw [trueOrNext_preserves cpu _ dest cpu' h]
      exact h0
    | jump dest =>
      simp only [Operate, Option.map_eq_some'] at h
      obtain ⟨imm, _, hc⟩ := h
      rw [← hc]; exact h0
    | jumpAndLink rd dest =>
      simp only [Operate, Option.map_eq_some'] at h
      obtain ⟨imm, _, hc⟩ := h
      rw [← hc]
      simp only [regGet] at h0 ⊢
      split
      · rw [getD_set_of_ne _ _ _ _ _ (by assumption)]
        exact h0
      · exact h0
    | jumpAndLinkR imm rd rs1 =>
      simp only [Operate, Option.some.injEq] at h
      rw [← h]
      simp only [regGet] at h0 ⊢
      split
      · rw [getD_set_of_ne _ _ _ _ _ (by assumption)]
        exact h0
      · exact h0
    | set rd rs1 rs2 op =>
      simp only [Operate] at h
      split at h
      · simp only [Option.some.injEq] at h
        rw [← h]
        simp only [regGet] at h0 ⊢
        rw [getD_set_of_ne _ _ _ _ _ (by assumption)]
        exact h0
      · simp only [Option.some.injEq] at h
        rw [← h]; exact h0
    | setImm rd rs1 imm op =>
      simp only [Operate] at h
      split at h
      · simp only [Option.some.injEq] at h
        rw [← h]
        simp only [regGet] at h0 ⊢
        rw [getD_set_of_ne _ _ _ _ _ (by assumption)]
        exact h0
      · simp only [Option.some.injEq] at h
        rw [← h]; exact h0
  · intro i v cpu h1 h2 hlen
    have hne : i ≠ 0 := by omega
    have hop : Operate (.loadImm i v .li) cpu
        = some { cpu with Registers := cpu.Registers.set i (loadImmOpFn .li cpu v),
                          PC := pc4 cpu.PC } := by
      simp only [Operate, if_pos hne]
    refine ⟨_, hop, ?_⟩
    simp only [regGet, loadImmOpFn]
    exact getD_set_self cpu.Registers i v 0 (by omega)

/-- Witness for C6: both conjuncts at concrete inputs — an `add x1,x1,x1`
on a fresh CPU keeps register 0 at zero, and `li x5, 77` leaves register 5
holding 77. -/
theorem C6_register_zero_witness :
    (regGet { NewCPU 16 with
        Registers := (NewCPU 16).Registers.set 1 0, PC := pc4 (NewCPU 16).PC } 0 = 0) ∧
    (∃ cpu', Operate (.loadImm 5 77 .li) (NewCPU 16) = some cpu' ∧ regGet cpu' 5 = 77) :=
  ⟨C6_register_zero.1 (.threePt 1 1 1 .add) (NewCPU 16) _ (by decide) (by decide),
   C6_register_zero.2 5 77 (NewCPU 16) (by decide) (by decide) (by decide)⟩

/-- A taken branch lands exactly on the label address: adding the wrapped
`uint32` displacement `labelAddr - PC` back onto the PC gives `labelAddr`. -/
theorem pc_jump_arith (pc addr : Nat) (haddr : addr < m32) (_hpc : pc < m32) :
    (pc + toUInt32n ((addr : Int) - (pc : Int))) % m32 = addr := by
  unfold toUInt32n m32 at *
  omega

/-- **C7.**  Executing `beq rs1, rs2, L`, where `L` is a non-numeric label
resolved by the loaded table, sets the PC to the label's address exactly
when the two register operands are equal, and otherwise advances the PC by
exactly 4. -/
theorem C7_beq_label (cpu : CPU) (rs1 rs2 : Nat) (L : String) (addr : Nat)
    (hL : goAtoi L = none)
    (hlook : cpu.Labels.lookup L = some addr)
    (haddr : addr < m32)
    (hpc : cpu.PC + 4 < m32) :
    Operate (.branchThree rs1 rs2 L .beq) cpu =
      some { cpu with PC := if regGet cpu rs1 = regGet cpu rs2 then addr
                            else cpu.PC + 4 } := by
  simp only [Operate, branchThreeCmp, trueOrNext, immOrLabel, hL, hlook]
  by_cases hc : regGet cpu rs1 = regGet cpu rs2
  · simp only [hc, decide_True, if_true, Option.map_some']
    rw [pc_jump_arith cpu.PC addr haddr (by omega)]
  · simp only [hc, decide_False, Bool.false_eq_true, if_false, if_neg hc,
      Option.some.injEq]
    rw [Nat.mod_eq_of_lt hpc]

/-- Witness for C7 on the label table `loop ↦ 28`: with equal operands
(registers 3 and 4, both zero) the branch jumps to 28; with unequal
operands (register 2 holds the stack pointer 16, register 3 zero) the PC
advances from 16 to 20. -/
theorem C7_beq_label_witness :
    (Operate (.branchThree 3 4 "loop" .beq) { NewCPU 16 with Labels := [("loop", 28)] }
      = some { { NewCPU 16 with Labels := [("loop", 28)] } with PC := 28 }) ∧
    (Operate (.branchThree 2 3 "loop" .beq) { NewCPU 16 with Labels := [("loop", 28)] }
      = some { { NewCPU 16 with Labels := [("loop", 28)] } with PC := 20 }) := by
  constructor
  · rw [C7_beq_label { NewCPU 16 with Labels := [("loop", 28)] } 3 4 "loop" 28
      (by decide) (by decide) (by decide) (by decide)]
    decide
  · rw [C7_beq_label { NewCPU 16 with Labels := [("loop", 28)] } 2 3 "loop" 28
      (by decide) (by decide) (by decide) (by decide)]
    decide

/-- **C8, amended.**  Every load and store of every width is bounds-checked
by `address + 4 > len(memory)`, and — *provided the `uint32` sum
`address + 4` does not wrap, i.e. `address + 4 < 2^32`* — a failing access
is a non-fatal no-op: the store returns the state unchanged (nothing
written, no history entry), the load returns zero with the state unchanged
(no history entry), and no panic occurs.  (For the four addresses at the
top of the address space the check itself wraps and the access is a fatal
slice panic — see the counterexample.) -/
theorem C8_oob_noop (cpu : CPU) (A : Nat) (v : Int)
    (hmem : cpu.Memory.length < m32)
    (hA : A + 4 < m32)
    (hfail : cpu.Memory.length < A + 4) :
    storeWord cpu A v = some cpu ∧ storeHalf cpu A v = some cpu ∧
    storeByte cpu A v = some cpu ∧ loadWord cpu A = some (0, cpu) ∧
    loadHalf cpu A = some (0, cpu) ∧ loadByte cpu A = some (0, cpu) := by
  have hchk : checkMemoryAccess cpu A = true := by
    unfold checkMemoryAccess m32 at *
    simp only [decide_eq_true_eq]
    omega
  refine ⟨?_, ?_, ?_, ?_, ?_, ?_⟩ <;>
    simp only [storeWord, storeHalf, storeByte, loadWord, loadHalf, loadByte,
      hchk, if_true]

/-- Witness for C8 (amended): on a fresh 16-byte memory, every access at
address 14 (within 4 bytes of the end) is dropped or returns zero with the
state untouched. -/
theorem C8_oob_noop_witness :
    storeWord (NewCPU 16) 14 5 = some (NewCPU 16) ∧
    storeHalf (NewCPU 16) 14 5 = some (NewCPU 16) ∧
    storeByte (NewCPU 16) 14 5 = some (NewCPU 16) ∧
    loadWord (NewCPU 16) 14 = some (0, NewCPU 16) ∧
    loadHalf (NewCPU 16) 14 = some (0, NewCPU 16) ∧
    loadByte (NewCPU 16) 14 = some (0, NewCPU 16) :=
  C8_oob_noop (NewCPU 16) 14 5 (by decide) (by decide) (by decide)

/-- A program is "non-looping" in the claim's sense when every in-bounds
step on it succeeds and advances the PC by exactly 4 (leaving the `Done`
flag and the program text alone); the `s.PC < 2^32` premise is the
`uint32` range invariant of the Go field. -/
def Plus4Program (instrs : List String) : Prop :=
  ∀ s : CPU, s.instructions = instrs → s.Done = false → 16 ≤ s.PC → s.PC < m32 →
    (instrNum s.PC : Int) ≤ (instrs.length : Int) - 1 →
    ∃ s', RunNextInstruction s = some s' ∧ s'.PC = s.PC + 4 ∧ s'.Done = false ∧
      s'.instructions = instrs

/-- Fuel lower bound for the run loop on a `Plus4Program`: starting `n`
slots before the end, `n + 2` loop iterations reach `Done`. -/
theorem runAux_plus4 (instrs : List String) (hlen : 16 + 4 * instrs.length < m32)
    (h4 : Plus4Program instrs) :
    ∀ (n : Nat) (s : CPU), n ≤ instrs.length → s.instructions = instrs →
      s.Done = false → s.PC = 16 + 4 * (instrs.length - n) →
      ∃ c, RunProgramAux (n + 2) s = some c := by
  intro n
  induction n with
  | zero =>
    intro s _ hins hdone hpc
    have hm32 : m32 = 4294967296 := rfl
    have hnum : instrNum s.PC = instrs.length := by
      unfold instrNum m32
      rw [hm32] at hlen
      omega
    have hstep : RunNextInstruction s = some { s with Done := true } := by
      unfold RunNextInstruction
      rw [if_neg (show ¬ s.PC < 16 by omega), hins,
        if_pos (show ((instrs.length : Int) - 1) < (instrNum s.PC : Int) by
          rw [hnum]; omega)]
    refine ⟨{ s with Done := true }, ?_⟩
    show RunProgramAux 2 s = some { s with Done := true }
    simp only [RunProgramAux, hdone, Bool.false_eq_true, if_false, hstep]
    rfl
  | succ n' ih =>
    intro s hn hins hdone hpc
    have hm32 : m32 = 4294967296 := rfl
    have hnum : instrNum s.PC = instrs.length - (n' + 1) := by
      unfold instrNum m32
      rw [hm32] at hlen
      omega
    have hbound : (instrNum s.PC : Int) ≤ (instrs.length : Int) - 1 := by
      rw [hnum]; omega
    obtain ⟨s', hstep, hpc', hdone', hins'⟩ :=
      h4 s hins hdone (by omega) (by omega) hbound
    obtain ⟨c, hc⟩ := ih s' (by omega) hins' hdone' (by omega)
    refine ⟨c, ?_⟩
    show RunProgramAux (n' + 2 + 1) s = some c
    simp only [RunProgramAux, hdone, Bool.false_eq_true, if_false, hstep]
    exact hc

/-- **C9.**  On a finite, non-looping program (every executed instruction
advances the PC by exactly 4) that fits the 32-bit address space,
`run_to_completion` terminates — fuel `length + 2` suffices — and on
return the PC equals the reserved base 16 and `Done` is `false` (`Ready`);
registers and memory are exactly those of the loop-exit state `c`, i.e.
they are *not* reset (only `PC` and `Done` are overridden). -/
theorem C9_run_to_completion (instrs : List String) (cpu : CPU)
    (hlen : 16 + 4 * instrs.length < m32)
    (h4 : Plus4Program instrs)
    (hins : cpu.instructions = instrs) (hpc : cpu.PC = 16) (hdone : cpu.Done = false) :
    ∃ c, RunProgramAux (instrs.length + 2) cpu = some c ∧
      RunProgram (instrs.length + 2) cpu = some { c with PC := 16, Done := false } := by
  obtain ⟨c, hc⟩ :=
    runAux_plus4 instrs hlen h4 instrs.length cpu (Nat.le_refl _) hins hdone (by omega)
  refine ⟨c, hc, ?_⟩
  unfold RunProgram
  rw [hc]
  rfl

/-- The one-line program `["li x1, 100"]` advances the PC by 4 on its only
instruction. -/
theorem plus4_li_program : Plus4Program ["li x1, 100"] := by
  intro s hins hdone hpc hlt hbound
  simp only [List.length_cons, List.length_nil] at hbound
  have hm32 : m32 = 4294967296 := rfl
  have hnum : instrNum s.PC = 0 := by omega
  have hpcle : s.PC ≤ 19 := by
    unfold instrNum m32 at hnum
    rw [hm32] at hlt
    omega
  have hdec : DecodeInstr "li x1, 100" = some (.loadImm 1 100 .li) := by decide
  refine ⟨{ s with Registers := s.Registers.set 1 100, PC := s.PC + 4 },
    ?_, rfl, hdone, hins⟩
  unfold RunNextInstruction
  rw [if_neg (show ¬ s.PC < 16 by omega), hins, hnum,
    if_neg (show ¬ (((["li x1, 100"].length : Int) - 1) < ((0 : Nat) : Int)) by decide),
    List.getD_cons_zero, hdec]
  simp only [Operate, if_pos (show (1 : Nat) ≠ 0 by decide), loadImmOpFn]
  rw [show pc4 s.PC = s.PC + 4 by unfold pc4 m32; omega, ← hins]

/-- Witness for C9: running `["li x1, 100"]` to completion from a freshly
loaded CPU terminates with the PC back at 16 and `Done` cleared. -/
theorem C9_run_to_completion_witness :
    ∃ c, RunProgramAux (["li x1, 100"].length + 2)
        (LoadInstructions (NewCPU 16) ["li x1, 100"]) = some c ∧
      RunProgram (["li x1, 100"].length + 2)
        (LoadInstructions (NewCPU 16) ["li x1, 100"])
        = some { c with PC := 16, Done := false } :=
  C9_run_to_completion ["li x1, 100"] (LoadInstructions (NewCPU 16) ["li x1, 100"])
    (by decide) plus4_li_program (by decide) (by decide) (by decide)

/-- **C10.**  The shift operators are not total: every shift closure
(`sll`, `srl`, `sra` and their immediate forms) panics — a fatal Go
runtime fault, `none` — on a negative shift amount, and always produces a
value on a non-negative one.  The fault is reachable from well-formed
input: `sll x1, x2, x3` decodes fine and executing it with a negative
value in register `x3` panics. -/
theorem C10_shift_not_total :
    (∀ a b : Int, b < 0 →
      threePtOpFn .sll a b = none ∧ threePtOpFn .srl a b = none ∧
      threePtOpFn .sra a b = none ∧ threePtImmOpFn .slli a b = none ∧
      threePtImmOpFn .srli a b = none ∧ threePtImmOpFn .srai a b = none) ∧
    (∀ a b : Int, 0 ≤ b →
      (∃ v, threePtOpFn .sll a b = some v) ∧ (∃ v, threePtOpFn .srl a b = some v) ∧
      (∃ v, threePtOpFn .sra a b = some v) ∧
      (∃ v, threePtImmOpFn .slli a b = some v) ∧
      (∃ v, threePtImmOpFn .srli a b = some v) ∧
      (∃ v, threePtImmOpFn .srai a b = some v)) ∧
    DecodeInstr "sll x1, x2, x3" = some (.threePt 1 2 3 .sll) ∧
    (∀ cpu : CPU, regGet cpu 3 < 0 → Operate (.threePt 1 2 3 .sll) cpu = none) := by
  refine ⟨?_, ?_, by decide, ?_⟩
  · intro a b hb
    refine ⟨?_, ?_, ?_, ?_, ?_, ?_⟩ <;>
      simp only [threePtOpFn, threePtImmOpFn, if_pos hb]
  · intro a b hb
    have hb' : ¬ b < 0 := by omega
    exact ⟨⟨wrap32 (a * 2 ^ b.toNat), by simp only [threePtOpFn, if_neg hb']⟩,
      ⟨u32ToInt32 (toUInt32n a / 2 ^ b.toNat), by simp only [threePtOpFn, if_neg hb']⟩,
      ⟨Int.fdiv a (2 ^ b.toNat), by simp only [threePtOpFn, if_neg hb']⟩,
      ⟨wrap32 (a * 2 ^ b.toNat), by simp only [threePtImmOpFn, if_neg hb']⟩,
      ⟨u32ToInt32 (toUInt32n a / 2 ^ b.toNat), by simp only [threePtImmOpFn, if_neg hb']⟩,
      ⟨Int.fdiv a (2 ^ b.toNat), by simp only [threePtImmOpFn, if_neg hb']⟩⟩
  · intro cpu hneg
    simp only [Operate, if_pos (show (1 : Nat) ≠ 0 by decide), threePtOpFn,
      if_pos hneg]

/-- Witness for C10: `sll` on shift amount `-1` panics, on 2 produces a
value, and the decoded `sll x1, x2, x3` faults on a CPU whose `x3` holds
`-1`. -/
theorem C10_shift_not_total_witness :
    threePtOpFn .sll 1 (-1) = none ∧ (∃ v, threePtOpFn .sll 1 2 = some v) ∧
    Operate (.threePt 1 2 3 .sll)
      { NewCPU 16 with Registers := (NewCPU 16).Registers.set 3 (-1) } = none :=
  ⟨(C10_shift_not_total.1 1 (-1) (by decide)).1,
   (C10_shift_not_total.2.1 1 2 (by decide)).1,
   C10_shift_not_total.2.2.2 _ (by decide)⟩

end Riscv
